import Mathlib

set_option maxRecDepth 10000

/-!
Verification of the gb-rs code generators.

This file gives a shallow embedding of the two Python generator scripts of
the repository (the opcode-table transpiler `test.py` and the palette
transpiler `core/colors.py`) and proves the frozen claims about them.

The opcode script parses HTML table cells of the form
`MNEMONIC<br/>BYTES NBSP CYCLES[/CYCLES_FALSE]<br/>Z N H C`, normalizes the
mnemonic with a fixed chain of regular-expression substitutions, classifies
the operand tokens, and renders text blocks.  The regex operations used by
the script (`re.sub`, `re.match`, `re.split` on the concrete patterns of the
source) are embedded below as executable functions on `List Char`, each
faithful to Python `re` semantics (leftmost scanning, alternation tried in
order with backtracking, word boundaries computed on the subject string).
-/

/-! ## Character classes (Python `re`, ASCII semantics of the 2.x `str` patterns) -/

/-- The non-breaking space character `\xa0` used by the opcode HTML table. -/
def nbspChar : Char := Char.ofNat 160

/-- `[0-9]`. -/
def isDigitC (c : Char) : Bool := '0' ≤ c && c ≤ '9'

/-- Python `\w` for ASCII patterns: `[A-Za-z0-9_]`; used for `\b` boundaries. -/
def isWordC (c : Char) : Bool :=
  ('A' ≤ c && c ≤ 'Z') || ('a' ≤ c && c ≤ 'z') || isDigitC c || c = '_'

/-- Python `\s` for ASCII patterns: `[ \t\n\r\f\v]`. -/
def isSpaceC (c : Char) : Bool :=
  c = ' ' || c = '\t' || c = '\n' || c = '\r' || c = '\x0b' || c = '\x0c'

/-- `[a-z]`. -/
def isLowerC (c : Char) : Bool := 'a' ≤ c && c ≤ 'z'

/-- A word boundary `\b` on the left of a position: start of string or a
non-word character right before. -/
def wordBoundaryL (prev : Option Char) : Bool :=
  match prev with
  | none => true
  | some p => !isWordC p

/-- A word boundary `\b` on the right of a match: end of string or a
non-word character right after. -/
def wordBoundaryR (rest : List Char) : Bool :=
  match rest with
  | [] => true
  | c :: _ => !isWordC c

/-! ## A `re.sub` scanning engine

A matcher inspects the character before the current position (for `\b`) and
the text from the current position on; on success it yields the replacement
and the number of characters consumed MINUS ONE (every pattern of the script
consumes at least one character, and the offset keeps the recursion
structurally decreasing).  `subAll` scans left to right, replaces the
leftmost match and resumes after the matched characters, as `re.sub` does;
boundaries keep referring to the original subject characters. -/

def Matcher : Type := Option Char → List Char → Option (List Char × Nat)

/-- The scanning recursion behind `re.sub`, structurally recursive on a
fuel so that it reduces definitionally.  `subAll` below seeds the fuel with
the subject length; every step consumes at least one character while the
fuel drops by one, so the fuel-exhausted branch is never taken from that
seed. -/
def subAllF (m : Matcher) : Nat → Option Char → List Char → List Char
  | _, _, [] => []
  | 0, _, l => l
  | fuel + 1, prev, c :: cs =>
    match m prev (c :: cs) with
    | some (rep, k) =>
        rep ++ subAllF m fuel (((c :: cs).take (k + 1)).getLast?) ((c :: cs).drop (k + 1))
    | none => c :: subAllF m fuel (some c) cs

/-- `re.sub` with matcher `m` over the subject. -/
def subAll (m : Matcher) (prev : Option Char) (l : List Char) : List Char :=
  subAllF m l.length prev l

/-- Matcher for a literal pattern (no boundary checks), e.g. `HL\+`, `\+`,
`HL\-`. -/
def litM (pat repl : List Char) : Matcher := fun _ cs =>
  if pat.isPrefixOf cs && !pat.isEmpty then some (repl, pat.length - 1) else none

/-- Matcher for an alternation of literal words framed by `\b..\b`, tried in
the given order; an alternative that matches the text but misses the closing
boundary is backtracked past, as Python `re` does.  Used for the `r16` and
`r8` register substitutions. -/
def wordAltsM (alts : List (List Char)) (repl : List Char) : Matcher := fun prev cs =>
  if !wordBoundaryL prev then none
  else
    alts.findSome? fun alt =>
      if alt.isPrefixOf cs && !alt.isEmpty && wordBoundaryR (cs.drop alt.length) then
        some (repl, alt.length - 1)
      else none

/-- Matcher for `(SET|BIT|RES) [0-9]+` with replacement `\1 l8`. -/
def bitOpM : Matcher := fun _ cs =>
  (["SET", "BIT", "RES"].map String.toList).findSome? fun kw =>
    if kw.isPrefixOf cs then
      match cs.drop kw.length with
      | ' ' :: rest2 =>
        let ds := rest2.takeWhile isDigitC
        if ds.isEmpty then none
        else some (kw ++ (' ' :: ['l', '8']), kw.length + ds.length)
      | _ => none
    else none

/-- Matcher for `(JP|JR|CALL|RET) (Z|NZ|C|NC)\b` with replacement `\1 COND`. -/
def condSubM : Matcher := fun _ cs =>
  (["JP", "JR", "CALL", "RET"].map String.toList).findSome? fun kw =>
    if kw.isPrefixOf cs then
      match cs.drop kw.length with
      | ' ' :: rest2 =>
        (["Z", "NZ", "C", "NC"].map String.toList).findSome? fun cond =>
          if cond.isPrefixOf rest2 && wordBoundaryR (rest2.drop cond.length) then
            some (kw ++ (' ' :: "COND".toList), kw.length + cond.length)
          else none
      | _ => none
    else none

/-- Matcher for `\b[0-9]+H\b` with replacement `LIT`.  A digit is never `H`,
so the greedy digit run with backtracking matches exactly when the maximal
digit run is followed by `H` and a boundary. -/
def hexLitSubM : Matcher := fun prev cs =>
  if !wordBoundaryL prev then none
  else
    let ds := cs.takeWhile isDigitC
    if ds.isEmpty then none
    else
      match cs.drop ds.length with
      | 'H' :: rest => if wordBoundaryR rest then some ("LIT".toList, ds.length) else none
      | _ => none

/-- The 16-bit register names, in the order the script joins them into the
pattern `\b(AF|BC|DE|HL|HLP|HLS|SP|PC)\b`. -/
def reg16Names : List String := ["AF", "BC", "DE", "HL", "HLP", "HLS", "SP", "PC"]

/-- The 8-bit register names, order of `\b(A|F|B|C|D|E|H|L)\b`. -/
def reg8Names : List String := ["A", "F", "B", "C", "D", "E", "H", "L"]

/-- The condition names, order of `(Z|NZ|C|NC)`. -/
def condNames : List String := ["Z", "NZ", "C", "NC"]

/-- The branching mnemonic names, order of `(JP|JR|CALL|RET)`. -/
def jmpNames : List String := ["JP", "JR", "CALL", "RET"]

/-- The mnemonic normalization chain of `read_cell` (`test.py` lines 22-31):
the first component is `clean_mnem` (after the `HL+`/`+`/`HL-` rewrites),
the second the fully generic shape. -/
def normalizeSteps (m : List Char) : List Char × List Char :=
  let g1 := subAll (litM "HL+".toList "HLP".toList) none m
  let g2 := subAll (litM "+".toList " ".toList) none g1
  let g3 := subAll (litM "HL-".toList "HLS".toList) none g2
  let g4 := subAll bitOpM none g3
  let g5 := subAll condSubM none g4
  let g6 := subAll (wordAltsM (reg16Names.map String.toList) "r16".toList) none g5
  let g7 := subAll (wordAltsM (reg8Names.map String.toList) "r8".toList) none g6
  let g8 := subAll hexLitSubM none g7
  (g3, g8)

/-- The generic (canonical) shape of a mnemonic, `generic` in the source. -/
def normalizeGeneric (m : String) : String := String.mk (normalizeSteps m.toList).2

/-!
`re.split("\s+|,", s)`: a separator is a maximal whitespace run or one
comma; empty fields between adjacent separators are kept, as `re.split`
keeps them.  `splitWsCommaAux` accumulates the current field;
`splitAfterSpace` runs inside a whitespace run, extending it maximally.
-/
mutual

def splitWsCommaAux : List Char → List Char → List String
  | [], acc => [String.mk acc.reverse]
  | c :: cs, acc =>
    if c = ',' then String.mk acc.reverse :: splitWsCommaAux cs []
    else if isSpaceC c then String.mk acc.reverse :: splitAfterSpace cs
    else splitWsCommaAux cs (c :: acc)

def splitAfterSpace : List Char → List String
  | [] => [String.mk []]
  | c :: cs =>
    if c = ',' then String.mk [] :: splitWsCommaAux cs []
    else if isSpaceC c then splitAfterSpace cs
    else splitWsCommaAux cs [c]

end

/-- `re.split("\s+|,", s)`. -/
def splitWsComma (cs : List Char) : List String := splitWsCommaAux cs []

/-- The recursion behind Python `s.split(sep)` for a nonempty separator:
leftmost non-overlapping occurrences, empty fields kept.  Structural on a
fuel seeded with the subject length (each step consumes at least one
character, so the fuel-exhausted branch is never taken from that seed). -/
def splitSubF (sep : List Char) : Nat → List Char → List Char → List String
  | _, [], acc => [String.mk acc.reverse]
  | 0, l, acc => [String.mk (acc.reverse ++ l)]
  | fuel + 1, c :: cs, acc =>
    if sep.isPrefixOf (c :: cs) && !sep.isEmpty then
      String.mk acc.reverse :: splitSubF sep fuel ((c :: cs).drop sep.length) []
    else splitSubF sep fuel cs (c :: acc)

/-- Python `s.split(sep)` for a nonempty separator. -/
def splitSub (s : String) (sep : String) : List String :=
  splitSubF sep.toList s.toList.length s.toList []

/-- The numeric value of a digit run, as Python `int`. -/
def digitsToNat (ds : List Char) : Nat :=
  ds.foldl (fun n c => n * 10 + (c.toNat - '0'.toNat)) 0

/-- `re.match("([0-9]+)\xa0+([0-9]+)(?:/([0-9]+))?", l2)` followed by the
`int` conversions of line 17: byte count, cycle count, and the optional
not-taken cycle count (`None` when the optional group did not participate).
`none` when the regex does not match (the script would then die on
`m.group` of `None`). -/
def parseTiming (cs : List Char) : Option (Nat × Nat × Option Nat) :=
  let d1 := cs.takeWhile isDigitC
  if d1.isEmpty then none
  else
    let r1 := cs.drop d1.length
    let sp := r1.takeWhile (fun c => c = nbspChar)
    if sp.isEmpty then none
    else
      let r2 := r1.drop sp.length
      let d2 := r2.takeWhile isDigitC
      if d2.isEmpty then none
      else
        match r2.drop d2.length with
        | '/' :: r4 =>
          let d3 := r4.takeWhile isDigitC
          if d3.isEmpty then some (digitsToNat d1, digitsToNat d2, none)
          else some (digitsToNat d1, digitsToNat d2, some (digitsToNat d3))
        | _ => some (digitsToNat d1, digitsToNat d2, none)

/-! ## The generated instruction record

`Gen = namedtuple("Gen", "op op_name name size cycles cycles_false fmt init elems")`.
The `fmt` slot holds a list of strings for the INVALID record and a plain
string otherwise (the namedtuple is dynamically typed), hence a small sum
type. -/

/-- The dynamically-typed `fmt` slot of the namedtuple. -/
inductive FmtVal where
  | strs : List String → FmtVal
  | str : String → FmtVal
deriving DecidableEq

/-- The `Gen` namedtuple of `test.py` line 9. -/
structure Gen where
  op : Nat
  op_name : String
  name : String
  size : Nat
  cycles : Nat
  cycles_false : Option Nat
  fmt : FmtVal
  init : List String
  elems : List String
deriving DecidableEq

/-- How a run of `read_cell` dies: the `print i; assert(False)` of the
unrecognized-token branch (carrying the printed token), the `KeyError` a
`conv[i]` lookup raises for an immediate-like token outside the table, the
`ValueError` of a tuple unpacking that does not fit, and the
`AttributeError` of `m.group` when the timing regex did not match. -/
inductive GenError where
  | assertFail : String → GenError
  | keyError : String → GenError
  | valueError : GenError
  | matchError : GenError
deriving DecidableEq

instance {α β : Type} [DecidableEq α] [DecidableEq β] : DecidableEq (Except α β) := fun x y =>
  match x, y with
  | .ok a, .ok b =>
    if h : a = b then .isTrue (by rw [h]) else .isFalse (fun hc => by cases hc; exact h rfl)
  | .error a, .error b =>
    if h : a = b then .isTrue (by rw [h]) else .isFalse (fun hc => by cases hc; exact h rfl)
  | .ok _, .error _ => .isFalse (fun hc => by cases hc)
  | .error _, .ok _ => .isFalse (fun hc => by cases hc)

/-- `re.match` of an alternation of plain words against the start of a
string (no anchoring at the end, as `re.match` only anchors the start). -/
def prefixMatchAny (alts : List String) (s : String) : Bool :=
  alts.any (fun a => a.toList.isPrefixOf s.toList)

/-- `re.match("[0-9]+H", i)`: a nonempty digit run followed by `H` at the
start of the token (a digit is never `H`, so the greedy run is the only
candidate). -/
def matchHexLitB (s : String) : Bool :=
  let cs := s.toList
  let ds := cs.takeWhile isDigitC
  !ds.isEmpty &&
    match cs.drop ds.length with
    | 'H' :: _ => true
    | _ => false

/-- `re.match("[0-9]+", i)`: the token starts with a digit. -/
def matchDecimalB (s : String) : Bool :=
  match s.toList with
  | c :: _ => isDigitC c
  | [] => false

/-- `re.match("[a-z][0-9]+", i)`: a lowercase letter then a digit at the
start of the token. -/
def matchImmB (s : String) : Bool :=
  match s.toList with
  | a :: b :: _ => isLowerC a && isDigitC b
  | _ => false

/-- The `conv` table of `test.py` lines 69-75. -/
def conv : List (String × String) :=
  [("d8", "u8"), ("d16", "u16"), ("a8", "u8"), ("a16", "u16"), ("r8", "i8")]

/-- `conv[i]` as a lookup; `none` is Python's `KeyError`. -/
def convLookup (s : String) : Option String :=
  (conv.find? (fun p => p.1 == s)).map Prod.snd

/-- `re.sub(r"\(|\)", "", i)`: strip every parenthesis from a token. -/
def stripParens (s : String) : String :=
  String.mk (s.toList.filter (fun c => !(c = '(' || c = ')')))

/-- One iteration of the operand-classification loop of `test.py` lines
50-81, for a stripped token `tok` of a mnemonic whose head token is `name`:
the produced `(init, elems)` pair, or the failure.  The branches and their
order are those of the source: branch condition (only when the mnemonic name
starts like a branching instruction), 16-bit register, 8-bit register, hex
literal `nnH`, bare decimal, immediate placeholder `[a-z][0-9]+` (with the
`conv` lookup that can raise `KeyError`), else `print i; assert(False)`. -/
def classifyToken (name : String) (tok : String) : Except GenError (String × String) :=
  if prefixMatchAny jmpNames name && prefixMatchAny condNames tok then
    .ok ("Cond::" ++ tok, "Cond")
  else if prefixMatchAny reg16Names tok then
    .ok ("Reg16::" ++ tok, "Reg16")
  else if prefixMatchAny reg8Names tok then
    .ok ("Reg8::" ++ tok, "Reg8")
  else if matchHexLitB tok then
    .ok ("0x" ++ String.mk tok.toList.dropLast, "u8")
  else if matchDecimalB tok then
    .ok (tok, "u8")
  else if matchImmB tok then
    match convLookup tok with
    | some ty =>
      let grp2 := String.mk ((tok.toList.drop 1).takeWhile isDigitC)
      .ok ("read_u" ++ grp2 ++ "(bytes)?" ++
            (if ty.toList.headD 'u' = 'u' then "" else " as " ++ ty), ty)
    | none => .error (.keyError tok)
  else .error (.assertFail tok)

/-- The classification loop over all operand tokens, stopping at the first
failure as the Python loop does. -/
def classifyAll (name : String) : List String → Except GenError (List (String × String))
  | [] => .ok []
  | t :: ts =>
    match classifyToken name t with
    | .error e => .error e
    | .ok p =>
      match classifyAll name ts with
      | .error e => .error e
      | .ok ps => .ok (p :: ps)

/-- `re.match(r"\(([a-z0-9+-]+)\)", i)` of the display loop (line 39):
`some inner` with the first group when the token starts with a
parenthesized `[a-z0-9+-]+` run. -/
def parenInner (s : String) : Option String :=
  match s.toList with
  | '(' :: rest =>
    let inner := rest.takeWhile (fun c => isLowerC c || isDigitC c || c = '+' || c = '-')
    if inner.isEmpty then none
    else
      match rest.drop inner.length with
      | ')' :: _ => some (String.mk inner)
      | _ => none
  | _ => none

/-- `re.match("\xa0+", c)`: the cell text starts with a non-breaking space. -/
def nbspPrefix (c : String) : Bool :=
  match c.toList with
  | ch :: _ => ch = nbspChar
  | [] => false

/-- The INVALID record of `test.py` line 13:
`Gen(opcode, "INVALID", "INVALID", 1, 1, None, ["opcode"], [], [])`. -/
def invalidGen (opcode : Nat) : Gen :=
  { op := opcode, op_name := "INVALID", name := "INVALID", size := 1, cycles := 1,
    cycles_false := none, fmt := .strs ["opcode"], init := [], elems := [] }

/-- One step of the display loop over the generic operand items (lines
38-45): the `(fmt, new_items)` pair a token contributes. -/
def fmtPair (i : String) : String × String :=
  match parenInner i with
  | some inner => ("(\x7b:?\x7d)", "i" ++ inner)
  | none => ("\x7b:?\x7d", i)

/-- The record-building tail of `read_cell` (lines 22-93), once the cell is
split and the timing parsed (and the cycle pair already swapped): the
normalization, the display loop over the generic items, the classification
loop over the cleaned items, and the `Gen` record of lines 83-93. -/
def buildGen (opcode : Nat) (mnemonic : String) (bytes cycles : Nat)
    (cycles_false : Option Nat) : Except GenError Gen :=
  match splitWsComma (normalizeSteps mnemonic.toList).2 with
  | [] => .error .valueError
  | name :: gitems =>
    match classifyAll name
        (((splitWsComma (normalizeSteps mnemonic.toList).1).drop 1).map stripParens) with
    | .error e => .error e
    | .ok pairs =>
      .ok {
        op := opcode,
        op_name := name,
        name := String.intercalate "_" (name :: (gitems.map fmtPair).map Prod.snd),
        size := bytes,
        cycles := cycles,
        cycles_false := cycles_false,
        fmt := .str (name ++ (if (gitems.map fmtPair).length > 0 then " " else "") ++
          String.intercalate "," ((gitems.map fmtPair).map Prod.fst)),
        init := pairs.map Prod.fst,
        elems := pairs.map Prod.snd }

/-- Lines 18-19: when the optional not-taken count is present and nonzero
(Python truthiness of `cycles_false`), the two cycle values are swapped:
`(cycles, cycles_false) = (cycles_false, cycles)`. -/
def swapCycles (cyc0 : Nat) (cf0 : Option Nat) : Nat × Option Nat :=
  match cf0 with
  | some cf => if cf ≠ 0 then (cf, some cyc0) else (cyc0, some cf)
  | none => (cyc0, none)

/-- `read_cell(opcode, c)` of `test.py` lines 11-94, as the record it stores
into `gens[opcode]`, or the failure that aborts the script. -/
def readCell (opcode : Nat) (c : String) : Except GenError Gen :=
  if nbspPrefix c then .ok (invalidGen opcode)
  else
    match splitSub c "<br/>" with
    | [mnemonic, l2, l3] =>
      match parseTiming l2.toList with
      | none => .error .matchError
      | some (bytes, cyc0, cf0) =>
        if (splitSub l3 " ").length = 4 then
          buildGen opcode mnemonic bytes (swapCycles cyc0 cf0).1 (swapCycles cyc0 cf0).2
        else .error .valueError
    | _ => .error .valueError

/-! ## Rendered text blocks (`test.py` lines 119-154) -/

/-- The machine-cycle count the timing table reports: `gens[i].cycles / 4`
with Python 2 integer (floor) division. -/
def machineCycles (g : Gen) : Nat := g.cycles / 4

/-- The `cycles_branch` field text:
`"None" if ... is None else "Some({})".format(cycles_false / 4)`. -/
def dataCyclesBranch (g : Gen) : String :=
  match g.cycles_false with
  | none => "None"
  | some cf => "Some(" ++ toString (cf / 4) ++ ")"

/-- One line of the timing/size table (`data`, lines 129-134). -/
def dataLine (g : Gen) : String :=
  "OpCode \x7b mnemonic : \"" ++ g.op_name ++ "\", size : " ++ toString g.size ++
    ", cycles: " ++ toString (machineCycles g) ++ ", cycles_branch: " ++
    dataCyclesBranch g ++ " \x7d,\n"

/-- A lowercase hex digit. -/
def hexDigitC (n : Nat) : Char :=
  if n < 10 then Char.ofNat ('0'.toNat + n) else Char.ofNat ('a'.toNat + (n - 10))

/-- Python `"{:02x}".format(n)` for `n < 256` (the script only ever formats
`i & 0xff`, which is below 256): two lowercase hex digits, zero padded. -/
def pyHex02 (n : Nat) : String := String.mk [hexDigitC ((n / 16) % 16), hexDigitC (n % 16)]

/-- One line of the decode-dispatch block (`read`, lines 123-128): the key is
`"0x{:02x}".format(i & 0xff)`, and the constructor argument list is rendered
exactly when the record has elements. -/
def readLine (i : Nat) (g : Gen) : String :=
  "0x" ++ pyHex02 (i &&& 0xff) ++ " => Instr::" ++ g.name ++
    (if g.elems.length ≠ 0 then "(" ++ String.intercalate ", " g.init ++ ")" else "") ++
    ",\n"

/-! ## The table walker (`test.py` lines 104-110)

`gens` is a Python dict; we model it as an association list in key insertion
order: assigning an existing key updates it in place, a new key is appended. -/

/-- The `gens` dict. -/
abbrev GensT : Type := List (Nat × Gen)

/-- `gens[k] = v`. -/
def dictSet (m : GensT) (k : Nat) (v : Gen) : GensT :=
  if m.any (fun p => p.1 == k) then
    m.map (fun p => if p.1 == k then (p.1, v) else p)
  else m ++ [(k, v)]

/-- Whether the dict has the key. -/
def hasKey (m : GensT) (k : Nat) : Bool := m.any (fun p => p.1 == k)

/-- The inner loop of `do_table`: cells of one row, `d` the running cell
index, opcode `(prefix << 8) | (r_id << 4) | d_id`. -/
def doCells (pfx r : Nat) : Nat → List String → GensT → Except GenError GensT
  | _, [], gens => .ok gens
  | d, c :: rest, gens =>
    match readCell (((pfx <<< 8) ||| (r <<< 4)) ||| d) c with
    | .error e => .error e
    | .ok g => doCells pfx r (d + 1) rest (dictSet gens (((pfx <<< 8) ||| (r <<< 4)) ||| d) g)

/-- The outer loop of `do_table`: rows, `r` the running row index; each
row's first `td` is dropped. -/
def doRows (pfx : Nat) : Nat → List (List String) → GensT → Except GenError GensT
  | _, [], gens => .ok gens
  | r, row :: rest, gens =>
    match doCells pfx r 0 (row.drop 1) gens with
    | .error e => .error e
    | .ok gens1 => doRows pfx (r + 1) rest gens1

/-- `do_table(table, prefix)`: walk the table's rows (the first `tr` is
dropped) over a starting `gens` dict. -/
def doTable (table : List (List String)) (pfx : Nat) (gens : GensT) : Except GenError GensT :=
  doRows pfx 0 (table.drop 1) gens

/-- The two `do_table` calls of lines 109-110: the base table with prefix 0,
then the extended table with prefix 0xCB, over an initially empty dict. -/
def runTables (base extend : List (List String)) : Except GenError GensT :=
  match doTable base 0 [] with
  | .error e => .error e
  | .ok gens1 => doTable extend 0xCB gens1

/-! ## The palette transpiler (`core/colors.py`)

Rows are taken as already parsed (each CSV data row split on tabs and
clipped to columns `[2:-1]`, as lines 4 and 12 do): a manual row is a name
followed by color strings, a custom row is a name, a variant, a third
column, then color strings.  The `colors` dict of lines 6-16 collects every
color string of manual rows (columns `[1:]`) and custom rows (columns
`[3:]`); only its key set matters, the list of keys is sorted at line 19. -/

/-- Every color-string occurrence the script walks into the `colors` dict,
in walk order. -/
def colorStrings (manual custom : List (List String)) : List String :=
  (manual.map (fun m => m.drop 1)).flatten ++ (custom.map (fun m => m.drop 3)).flatten

/-- `all_c` of lines 18-19: the distinct colors, sorted lexicographically
(Python `list.sort` on the `#RRGGBB` strings). -/
def allColors (manual custom : List (List String)) : List String :=
  List.insertionSort (· ≤ ·) (colorStrings manual custom).dedup

/-- `keys` of line 20: each distinct color mapped to its 0-based index in
the sorted order. -/
def keysIndex (manual custom : List (List String)) (c : String) : Option Nat :=
  (allColors manual custom).indexOf? c

/-- A substring `s[a:b]` of a (short) Python string. -/
def sliceStr (s : String) (a b : Nat) : String :=
  String.mk ((s.toList.drop a).take (b - a))

/-- One line of the emitted color table (line 23):
`"[0x{}, 0x{}, 0x{}],".format(c[1:3], c[3:5], c[5:7])`. -/
def colorLine (c : String) : String :=
  "[0x" ++ sliceStr c 1 3 ++ ", 0x" ++ sliceStr c 3 5 ++ ", 0x" ++ sliceStr c 5 7 ++ "],"

/-- The emitted color table, one line per sorted distinct color (lines 22-23). -/
def colorTable (manual custom : List (List String)) : List String :=
  (allColors manual custom).map colorLine

/-- The resolved color-index sequence of a custom row: line 36 replaces
`m[c]` by `keys[m[c]]` for every `c ≥ 3`.  The colors of every custom row
were collected into the dict at lines 14-16, so the lookup cannot raise
`KeyError`; `List.indexOf` equals the dict lookup on every color present. -/
def rowIndices (manual custom : List (List String)) (m : List String) : List Nat :=
  (m.drop 3).map (fun c => (allColors manual custom).indexOf c)

/-- Python `str` of a list of ints, e.g. `[1, 2, 3]`. -/
def pyIntList (l : List Nat) : String :=
  "[" ++ String.intercalate ", " (l.map toString) ++ "]"

/-- The rendered palette text a custom row is grouped by (line 38):
`"CustomPalette {{bg:{}, obj0: {}, obj1: {} }}".format(m[3:7], m[7:11], m[11:15])`
over the resolved row. -/
def customKey (manual custom : List (List String)) (m : List String) : String :=
  let idx := rowIndices manual custom m
  "CustomPalette \x7bbg:" ++ pyIntList (idx.take 4) ++ ", obj0: " ++
    pyIntList ((idx.drop 4).take 4) ++ ", obj1: " ++
    pyIntList ((idx.drop 8).take 4) ++ " \x7d"

/-- The `(name, variant)` group member a custom row contributes (line 38):
`"({}, {})".format(m[0], m[1] if m[1] else "_")`. -/
def customMember (m : List String) : String :=
  "(" ++ m.headD "" ++ ", " ++ (if m.getD 1 "" = "" then "_" else m.getD 1 "") ++ ")"

/-- `matches[key].append(value)` over a `defaultdict(list)`, modelled as an
association list in key insertion order. -/
def addMatch (acc : List (String × List String)) (k v : String) :
    List (String × List String) :=
  if acc.any (fun p => p.1 == k) then
    acc.map (fun p => if p.1 == k then (p.1, p.2 ++ [v]) else p)
  else acc ++ [(k, [v])]

/-- The `matches` grouping loop, generalized over the key and member
renderings of a row. -/
def groupFold (key mem : List String → String) (rows : List (List String))
    (acc : List (String × List String)) : List (String × List String) :=
  rows.foldl (fun a m => addMatch a (key m) (mem m)) acc

/-- The `matches` grouping loop of lines 33-38. -/
def buildMatches (manual custom : List (List String)) : List (String × List String) :=
  groupFold (customKey manual custom) customMember custom []

/-! ## Helpers for stating concrete instances -/

/-- The record inside an `ok` result (the INVALID record of opcode 0 as a
default never used on the inputs below). -/
def extractGen (e : Except GenError Gen) : Gen :=
  match e with
  | .ok g => g
  | .error _ => invalidGen 0

/-- The dict inside an `ok` result. -/
def extractGens (e : Except GenError GensT) : GensT :=
  match e with
  | .ok g => g
  | .error _ => []

/-! ## Claim C4 -/

/-- Claim C4: the mnemonic normalizer maps "LD A,B" and "LD A,C" to the same
canonical shape "LD r8,r8", and maps "LD A,(HL)" to the different shape
"LD r8,(r16)", in which the second operand is an indirect 16-bit register
form. -/
theorem C4_normalizer_shapes :
    normalizeGeneric "LD A,B" = "LD r8,r8" ∧
    normalizeGeneric "LD A,C" = "LD r8,r8" ∧
    normalizeGeneric "LD A,(HL)" = "LD r8,(r16)" ∧
    normalizeGeneric "LD A,B" ≠ normalizeGeneric "LD A,(HL)" :=
  ⟨by decide, by decide, by decide, by decide⟩

/-! ## Claim C6 -/

/-- Claim C6: a cell consisting only of non-breaking spaces decodes to the
canonical INVALID record: byte length 1, cycle count 1, no not-taken cycle
count, and empty operand lists. -/
theorem C6_nbsp_invalid (op : Nat) (c : String)
    (hne : c.toList ≠ [])
    (hall : ∀ ch ∈ c.toList, ch = nbspChar) :
    readCell op c = .ok (invalidGen op) ∧
    (invalidGen op).size = 1 ∧ (invalidGen op).cycles = 1 ∧
    (invalidGen op).cycles_false = none ∧ (invalidGen op).init = [] ∧
    (invalidGen op).elems = [] := by
  have h : nbspPrefix c = true := by
    unfold nbspPrefix
    cases hc : c.toList with
    | nil => exact absurd hc hne
    | cons a as =>
      have : a = nbspChar := hall a (by rw [hc]; exact List.mem_cons_self a as)
      simp [this]
  refine ⟨?_, rfl, rfl, rfl, rfl, rfl⟩
  unfold readCell
  simp [h]

/-- Witness for C6 at the one-character cell made of a single `\xa0`. -/
theorem C6_nbsp_invalid_witness : readCell 3 "\xa0" = .ok (invalidGen 3) :=
  (C6_nbsp_invalid 3 "\xa0" (by decide) (by decide)).1

/-! ## Claim C5 -/

/-- Claim C5: for every mnemonic name, the operand decoder classifies "d16"
as a 16-bit unsigned read, "r8" as an 8-bit read cast to signed 8-bit, and
"a8" as an 8-bit unsigned read, per the fixed `conv` width/signedness
table. -/
theorem C5_immediate_tokens (name : String) :
    classifyToken name "d16" = .ok ("read_u16(bytes)?", "u16") ∧
    classifyToken name "r8" = .ok ("read_u8(bytes)? as i8", "i8") ∧
    classifyToken name "a8" = .ok ("read_u8(bytes)?", "u8") := by
  refine ⟨?_, ?_, ?_⟩
  · unfold classifyToken
    rw [show prefixMatchAny condNames "d16" = false from rfl, Bool.and_false]
    decide
  · unfold classifyToken
    rw [show prefixMatchAny condNames "r8" = false from rfl, Bool.and_false]
    decide
  · unfold classifyToken
    rw [show prefixMatchAny condNames "a8" = false from rfl, Bool.and_false]
    decide

/-! ## Claim C9 -/

/-- Claim C9: the machine-cycle conversion of the timing table is integer
floor division by 4 (the reported count is the unique `q` with
`4*q ≤ cycles < 4*q + 4`, so a remainder is discarded), and an invalid
opcode, whose raw cycle count is 1, is emitted with machine-cycle count 0,
as its rendered timing line shows. -/
theorem C9_machine_cycle_floor :
    (∀ g : Gen, 4 * machineCycles g ≤ g.cycles ∧ g.cycles < 4 * machineCycles g + 4) ∧
    (∀ g : Gen, g.cycles % 4 ≠ 0 → 4 * machineCycles g ≠ g.cycles) ∧
    (∀ op : Nat, (invalidGen op).cycles = 1 ∧ machineCycles (invalidGen op) = 0) ∧
    (∀ op : Nat, dataLine (invalidGen op) =
      "OpCode \x7b mnemonic : \"INVALID\", size : 1, cycles: 0, cycles_branch: None \x7d,\n") := by
  refine ⟨?_, ?_, ?_, ?_⟩
  · intro g
    unfold machineCycles
    have h1 := Nat.div_add_mod g.cycles 4
    have h2 : g.cycles % 4 < 4 := Nat.mod_lt _ (by omega)
    omega
  · intro g hmod
    unfold machineCycles
    have h1 := Nat.div_add_mod g.cycles 4
    omega
  · intro op
    exact ⟨rfl, by simp [machineCycles, invalidGen]⟩
  · intro op
    have h0 : dataLine (invalidGen op) = dataLine (invalidGen 0) := by
      simp [dataLine, invalidGen, machineCycles, dataCyclesBranch]
    rw [h0]
    decide

/-- Witness for C9's remainder clause at the INVALID record (raw cycle
count 1, `1 % 4 ≠ 0`, and `4 * 0 ≠ 1`). -/
theorem C9_machine_cycle_floor_witness :
    4 * machineCycles (invalidGen 0) ≠ (invalidGen 0).cycles :=
  C9_machine_cycle_floor.2.1 (invalidGen 0) (by decide)

/-! ## Claim C10 -/

/-- Claim C10: a decode-dispatch line depends on the opcode only through its
low byte `i & 0xff`, so a CB-prefixed opcode `0xCB00 + b` renders the very
line of the base opcode `b`: the dispatch text never carries the 0xCB
prefix. -/
theorem C10_dispatch_low_byte :
    (∀ (i : Nat) (g : Gen), readLine i g = readLine (i &&& 0xff) g) ∧
    (∀ (b : Nat) (g : Gen), b < 256 → readLine (0xCB00 + b) g = readLine b g) := by
  have hmod : ∀ n : Nat, n &&& 0xff = n % 256 := by
    intro n
    have := Nat.and_pow_two_sub_one_eq_mod n 8
    norm_num at this
    exact this
  constructor
  · intro i g
    unfold readLine
    rw [hmod i, hmod (i % 256), Nat.mod_mod_of_dvd _ (dvd_refl 256)]
  · intro b g hb
    unfold readLine
    rw [hmod (0xCB00 + b), hmod b, show (0xCB00 + b) % 256 = b % 256 by omega]

/-- Witness for C10 at the CB-prefixed opcode 0xCB41 and the INVALID
record. -/
theorem C10_dispatch_low_byte_witness :
    readLine (0xCB00 + 0x41) (invalidGen 0) = readLine 0x41 (invalidGen 0) :=
  C10_dispatch_low_byte.2 0x41 (invalidGen 0) (by decide)

/-! ## Claim C1 -/

/-- The claim's own example cell, with raw timing text "8/12" (first value
smaller). -/
def c1cell : String := "XX<br/>1\xa08/12<br/>Z N H C"

/-- Claim C1, counterexample to the claim as stated: for a cell whose raw
timing is "8/12" the record keeps the SECOND value as base cycles, so the
timing line reports base machine cycles `12 / 4 = 3`, not the smaller
`min 8 12 / 4 = 2` the claim demands, and the not-taken count `8 / 4 = 2`,
not the larger `max 8 12 / 4 = 3`. -/
theorem C1_counterexample :
    readCell 0 c1cell =
      .ok { op := 0, op_name := "XX", name := "XX", size := 1, cycles := 12,
            cycles_false := some 8, fmt := .str "XX", init := [], elems := [] } ∧
    machineCycles (extractGen (readCell 0 c1cell)) = 3 ∧
    machineCycles (extractGen (readCell 0 c1cell)) ≠ min 8 12 / 4 ∧
    dataCyclesBranch (extractGen (readCell 0 c1cell)) = "Some(2)" ∧
    dataCyclesBranch (extractGen (readCell 0 c1cell)) ≠
      "Some(" ++ toString (max 8 12 / 4) ++ ")" :=
  ⟨by decide, by decide, by decide, by decide, by decide⟩


/-- Whatever record `buildGen` produces carries the opcode, byte count and
cycle pair it was given. -/
theorem buildGen_fields (op : Nat) (mnem : String) (bytes cyc : Nat)
    (cf : Option Nat) (g : Gen)
    (hok : buildGen op mnem bytes cyc cf = .ok g) :
    g.op = op ∧ g.size = bytes ∧ g.cycles = cyc ∧ g.cycles_false = cf := by
  unfold buildGen at hok
  split at hok
  · exact Except.noConfusion hok
  · split at hok
    · exact Except.noConfusion hok
    · cases hok
      exact ⟨rfl, rfl, rfl, rfl⟩

/-- Claim C1 as amended: for a cell whose raw timing parses as
`bytes, c1, some c2` with `c2 ≠ 0`, the parser swaps the two cycle values
unconditionally (regardless of which is larger): the record's base cycle
count is the SECOND raw value `c2` and its not-taken count the FIRST raw
value `c1`, each divided by 4 in the rendered timing record. -/
theorem C1_swapped_cycles (op : Nat) (cell mnemonic l2 l3 : String)
    (b c1 c2 : Nat) (g : Gen)
    (hnb : nbspPrefix cell = false)
    (hsplit : splitSub cell "<br/>" = [mnemonic, l2, l3])
    (htime : parseTiming l2.toList = some (b, c1, some c2))
    (hc2 : c2 ≠ 0)
    (hok : readCell op cell = .ok g) :
    g.cycles = c2 ∧ g.cycles_false = some c1 ∧
    machineCycles g = c2 / 4 ∧
    dataCyclesBranch g = "Some(" ++ toString (c1 / 4) ++ ")" := by
  have hsw : swapCycles c1 (some c2) = (c2, some c1) := by
    show (if c2 ≠ 0 then (c2, some c1) else (c1, some c2)) = (c2, some c1)
    rw [if_pos hc2]
  unfold readCell at hok
  split at hok
  · rename_i hx
    rw [hnb] at hx
    cases hx
  · split at hok
    · rename_i heq
      rw [hsplit] at heq
      injection heq with e1 heq2
      injection heq2 with e2 heq3
      injection heq3 with e3 _
      subst e1; subst e2; subst e3
      split at hok
      · rename_i hpt
        rw [htime] at hpt
        exact absurd hpt (by simp)
      · rename_i bytes cyc0 cf0 hpt
        rw [htime] at hpt
        injection hpt with hpt1
        injection hpt1 with eb hpt2
        injection hpt2 with ec ef
        subst eb; subst ec; subst ef
        split at hok
        · rw [hsw] at hok
          have h := buildGen_fields op mnemonic b c2 (some c1) g hok
          refine ⟨h.2.2.1, h.2.2.2, ?_, ?_⟩
          · unfold machineCycles
            rw [h.2.2.1]
          · unfold dataCyclesBranch
            rw [h.2.2.2]
        · exact Except.noConfusion hok
    · rename_i hne
      exact absurd hsplit (by intro hc; exact hne _ _ _ hc)

/-- Witness for the amended C1 at the "8/12" cell: the base cycle count is
12 and the not-taken count 8. -/
theorem C1_swapped_cycles_witness :
    (extractGen (readCell 0 c1cell)).cycles = 12 ∧
    (extractGen (readCell 0 c1cell)).cycles_false = some 8 := by
  have h := C1_swapped_cycles 0 c1cell "XX" "1\xa08/12" "Z N H C" 1 8 12
    (extractGen (readCell 0 c1cell)) (by decide) (by decide) (by decide) (by decide) rfl
  exact ⟨h.1, h.2.1⟩

/-! ## Claim C3 -/

/-- The recognized operand-token categories of `test.py` lines 52-78, as one
predicate: branch condition (in a branching mnemonic), 16-bit register,
8-bit register, hex literal `nnH`, bare decimal literal, or immediate
placeholder `[a-z][0-9]+`. -/
def matchesCategory (name tok : String) : Bool :=
  (prefixMatchAny jmpNames name && prefixMatchAny condNames tok) ||
  prefixMatchAny reg16Names tok || prefixMatchAny reg8Names tok ||
  matchHexLitB tok || matchDecimalB tok || matchImmB tok

/-- The classification loop fails as soon as one token of the list fails. -/
theorem classifyAll_error_of_mem (name tok : String) (toks : List String)
    (hmem : tok ∈ toks)
    (hfail : classifyToken name tok = .error (.assertFail tok)) :
    ∃ e, classifyAll name toks = .error e := by
  induction toks with
  | nil => cases hmem
  | cons t ts ih =>
    cases hct : classifyToken name t with
    | error e =>
      refine ⟨e, ?_⟩
      unfold classifyAll
      rw [hct]
    | ok p =>
      rcases List.mem_cons.mp hmem with h | hmem2
      · subst h
        rw [hct] at hfail
        exact Except.noConfusion hfail
      · obtain ⟨e, he⟩ := ih hmem2
        refine ⟨e, ?_⟩
        unfold classifyAll
        rw [hct, he]

/-- `buildGen` produces no record when one cleaned operand token fails the
classification. -/
theorem buildGen_error_of_classify (op : Nat) (mnem : String) (bytes cyc : Nat)
    (cf : Option Nat) (name : String) (gtoks : List String) (tok : String)
    (hname : splitWsComma (normalizeSteps mnem.toList).2 = name :: gtoks)
    (hmem : tok ∈ ((splitWsComma (normalizeSteps mnem.toList).1).drop 1).map stripParens)
    (hfail : classifyToken name tok = .error (.assertFail tok)) :
    ∀ g : Gen, buildGen op mnem bytes cyc cf ≠ .ok g := by
  intro g hok
  unfold buildGen at hok
  split at hok
  · exact Except.noConfusion hok
  · rename_i name2 gitems2 heq
    rw [hname] at heq
    injection heq with en eg
    subst en
    split at hok
    · exact Except.noConfusion hok
    · rename_i pairs hcls2
      obtain ⟨e, he⟩ := classifyAll_error_of_mem name tok _ hmem hfail
      rw [he] at hcls2
      exact Except.noConfusion hcls2

/-- Claim C3: the operand decoder raises the fatal assertion (printing the
token) exactly for tokens matching none of the recognized categories, and a
cell one of whose operand tokens fails that way never yields a record (the
generation halts instead of skipping the token). -/
theorem C3_unrecognized_token_asserts :
    (∀ name tok : String,
      classifyToken name tok = .error (.assertFail tok) ↔
        matchesCategory name tok = false) ∧
    (∀ (op : Nat) (cell mnemonic l2 l3 name : String) (gtoks : List String)
        (tok : String) (g : Gen),
      nbspPrefix cell = false →
      splitSub cell "<br/>" = [mnemonic, l2, l3] →
      splitWsComma (normalizeSteps mnemonic.toList).2 = name :: gtoks →
      tok ∈ ((splitWsComma (normalizeSteps mnemonic.toList).1).drop 1).map stripParens →
      classifyToken name tok = .error (.assertFail tok) →
      readCell op cell ≠ .ok g) := by
  constructor
  · intro name tok
    unfold classifyToken matchesCategory
    split_ifs with h1 h2 h3 h4 h5 h6
    · simp [h1]
    · simp [h1, h2]
    · simp [h1, h2, h3]
    · simp [h1, h2, h3, h4]
    · simp [h1, h2, h3, h4, h5]
    · cases hcv : convLookup tok <;> simp [h1, h2, h3, h4, h5, h6]
    · simp [h1, h2, h3, h4, h5, h6]
  · intro op cell mnemonic l2 l3 name gtoks tok g hnb hsplit hname hmem hfail hok
    unfold readCell at hok
    split at hok
    · rename_i hx
      rw [hnb] at hx
      cases hx
    · split at hok
      · rename_i heq
        rw [hsplit] at heq
        injection heq with e1 heq2
        injection heq2 with e2 heq3
        injection heq3 with e3 _
        subst e1; subst e2; subst e3
        split at hok
        · exact Except.noConfusion hok
        · split at hok
          · exact buildGen_error_of_classify _ _ _ _ _ name gtoks tok
              hname hmem hfail g hok
          · exact Except.noConfusion hok
      · rename_i hne
        exact absurd hsplit (by intro hc; exact hne _ _ _ hc)

/-- Witness for C3 at the unrecognized token "q?" (matching no category) in
the cell "XX q?...": the classifier raises the assertion carrying the token
and the cell yields no record. -/
theorem C3_unrecognized_token_asserts_witness :
    classifyToken "XX" "q?" = .error (.assertFail "q?") ∧
    readCell 0 "XX q?<br/>1\xa04<br/>Z N H C" ≠ .ok (invalidGen 0) := by
  constructor
  · exact (C3_unrecognized_token_asserts.1 "XX" "q?").mpr (by decide)
  · exact C3_unrecognized_token_asserts.2 0 "XX q?<br/>1\xa04<br/>Z N H C"
      "XX q?" "1\xa04" "Z N H C" "XX" ["q?"] "q?" (invalidGen 0)
      (by decide) (by decide) (by decide) (by decide) (by decide)

/-! ## Claim C2 -/

/-- Setting a key absent from the dict appends it. -/
theorem dictSet_fresh (m : GensT) (k : Nat) (v : Gen)
    (h : ∀ p ∈ m, p.1 ≠ k) : dictSet m k v = m ++ [(k, v)] := by
  unfold dictSet
  rw [if_neg (by
    intro hc
    rw [List.any_eq_true] at hc
    obtain ⟨p, hp, hpk⟩ := hc
    exact h p hp (by simpa using hpk))]

/-- The inner loop over one row's cells: when every key already present is
below the next opcode, each cell appends exactly its opcode to the dict's
key list. -/
theorem doCells_keys (pfx r : Nat)
    (hkey : ∀ r' : Nat, r' < 16 → ∀ d' : Nat, d' < 16 →
      ((pfx <<< 8) ||| (r' <<< 4)) ||| d' = pfx * 256 + (r' * 16 + d'))
    (hr : r < 16) (cells : List String) :
    ∀ (d : Nat) (gens gens' : GensT),
      doCells pfx r d cells gens = .ok gens' →
      d + cells.length ≤ 16 →
      (∀ p ∈ gens, p.1 < pfx * 256 + (r * 16 + d)) →
      gens'.map Prod.fst =
        gens.map Prod.fst ++
          (List.range cells.length).map (fun j => pfx * 256 + (r * 16 + (d + j))) := by
  induction cells with
  | nil =>
    intro d gens gens' hok hle hfresh
    unfold doCells at hok
    injection hok with h
    subst h
    simp
  | cons c rest ih =>
    intro d gens gens' hok hle hfresh
    unfold doCells at hok
    have hd : d < 16 := by
      simp only [List.length_cons] at hle
      omega
    have hK : ((pfx <<< 8) ||| (r <<< 4)) ||| d = pfx * 256 + (r * 16 + d) := hkey r hr d hd
    split at hok
    · exact Except.noConfusion hok
    · rename_i g hrc
      rw [dictSet_fresh gens _ g (by
        intro p hp
        rw [hK]
        exact Nat.ne_of_lt (hfresh p hp))] at hok
      have hres := ih (d + 1) (gens ++ [(((pfx <<< 8) ||| (r <<< 4)) ||| d, g)]) gens' hok
        (by
          simp only [List.length_cons] at hle
          omega)
        (by
          intro p hp
          rcases List.mem_append.mp hp with hp1 | hp2
          · have := hfresh p hp1
            omega
          · have hpe : p = (((pfx <<< 8) ||| (r <<< 4)) ||| d, g) := List.mem_singleton.mp hp2
            rw [hpe]
            show ((pfx <<< 8) ||| (r <<< 4)) ||| d < pfx * 256 + (r * 16 + (d + 1))
            rw [hK]
            omega)
      rw [hres, List.map_append, List.append_assoc]
      congr 1
      show (((pfx <<< 8) ||| (r <<< 4)) ||| d) ::
          (List.range rest.length).map (fun j => pfx * 256 + (r * 16 + (d + 1 + j))) =
        (List.range (c :: rest).length).map (fun j => pfx * 256 + (r * 16 + (d + j)))
      rw [List.length_cons, List.range_succ_eq_map, List.map_cons, List.map_map]
      refine List.cons_eq_cons.mpr ⟨?_, ?_⟩
      · rw [hK]
        omega
      · exact List.map_congr_left (fun j _ => by
          simp only [Function.comp_apply]
          omega)

/-- The outer loop over a table's rows: sixteen 16-cell rows append exactly
the 256 opcodes of the prefix, in order. -/
theorem doRows_keys (pfx : Nat)
    (hkey : ∀ r' : Nat, r' < 16 → ∀ d' : Nat, d' < 16 →
      ((pfx <<< 8) ||| (r' <<< 4)) ||| d' = pfx * 256 + (r' * 16 + d'))
    (rows : List (List String)) :
    ∀ (r : Nat) (gens gens' : GensT),
      doRows pfx r rows gens = .ok gens' →
      (∀ row ∈ rows, (row.drop 1).length = 16) →
      r + rows.length ≤ 16 →
      (∀ p ∈ gens, p.1 < pfx * 256 + r * 16) →
      gens'.map Prod.fst =
        gens.map Prod.fst ++
          (List.range (rows.length * 16)).map (fun j => pfx * 256 + (r * 16 + j)) := by
  induction rows with
  | nil =>
    intro r gens gens' hok hrows hle hfresh
    unfold doRows at hok
    injection hok with h
    subst h
    simp
  | cons row rest ih =>
    intro r gens gens' hok hrows hle hfresh
    unfold doRows at hok
    have hr : r < 16 := by
      simp only [List.length_cons] at hle
      omega
    split at hok
    · exact Except.noConfusion hok
    · rename_i gens1 hrc
      have hcells := doCells_keys pfx r hkey hr (row.drop 1) 0 gens gens1 hrc
        (by rw [hrows row (List.mem_cons_self row rest)])
        (by
          intro p hp
          have := hfresh p hp
          omega)
      rw [hrows row (List.mem_cons_self row rest)] at hcells
      have hrest := ih (r + 1) gens1 gens' hok
        (fun row2 h2 => hrows row2 (List.mem_cons_of_mem row h2))
        (by
          simp only [List.length_cons] at hle
          omega)
        (by
          intro p hp
          have hp1 : p.1 ∈ gens1.map Prod.fst := List.mem_map_of_mem Prod.fst hp
          rw [hcells] at hp1
          rcases List.mem_append.mp hp1 with hA | hB
          · obtain ⟨q, hq, hq2⟩ := List.mem_map.mp hA
            have := hfresh q hq
            omega
          · obtain ⟨j, hj, hj2⟩ := List.mem_map.mp hB
            have hjr := List.mem_range.mp hj
            omega)
      rw [hrest, hcells, List.append_assoc]
      congr 1
      rw [List.length_cons, show (rest.length + 1) * 16 = 16 + rest.length * 16 by ring,
        List.range_add, List.map_append, List.map_map]
      congr 1
      all_goals
        refine List.map_congr_left (fun j _ => ?_)
        try simp only [Function.comp_apply]
        omega

/-- Claim C2: after walking a base table and an extended table of sixteen
16-cell data rows each (one header row and one header cell per row are
dropped), the `gens` dict holds exactly one record for every base opcode
0-255 and every 0xCB-prefixed opcode: its key list is exactly
`0..255, 0xCB00..0xCBFF`, so there are 512 records, no gaps and no
duplicates. -/
theorem C2_all_512 (base extend : List (List String)) (gensE : GensT)
    (hb1 : (base.drop 1).length = 16)
    (hb2 : ∀ row ∈ base.drop 1, (row.drop 1).length = 16)
    (he1 : (extend.drop 1).length = 16)
    (he2 : ∀ row ∈ extend.drop 1, (row.drop 1).length = 16)
    (hok : runTables base extend = .ok gensE) :
    gensE.map Prod.fst =
      List.range 256 ++ (List.range 256).map (fun b => 0xCB00 + b) ∧
    gensE.length = 512 ∧
    (∀ b : Nat, b < 256 →
      gensE.countP (fun p => p.1 == b) = 1 ∧
      gensE.countP (fun p => p.1 == 0xCB00 + b) = 1) := by
  unfold runTables at hok
  split at hok
  · exact Except.noConfusion hok
  · rename_i gensB hb
    have hkey0 : ∀ r' : Nat, r' < 16 → ∀ d' : Nat, d' < 16 →
        ((0 <<< 8) ||| (r' <<< 4)) ||| d' = 0 * 256 + (r' * 16 + d') := by decide
    have hkeyCB : ∀ r' : Nat, r' < 16 → ∀ d' : Nat, d' < 16 →
        ((0xCB <<< 8) ||| (r' <<< 4)) ||| d' = 0xCB * 256 + (r' * 16 + d') := by decide
    have hBkeys := doRows_keys 0 hkey0 (base.drop 1) 0 [] gensB hb hb2
      (by omega) (by simp)
    rw [hb1] at hBkeys
    have hBkeys2 : gensB.map Prod.fst = List.range 256 := by
      rw [hBkeys]
      simp only [List.map_nil, List.nil_append]
      rw [show (16 : Nat) * 16 = 256 from rfl]
      conv_rhs => rw [← List.map_id (List.range 256)]
      exact List.map_congr_left (fun j _ => by simp)
    have hEkeys := doRows_keys 0xCB hkeyCB (extend.drop 1) 0 gensB gensE hok he2
      (by omega)
      (by
        intro p hp
        have hp1 : p.1 ∈ gensB.map Prod.fst := List.mem_map_of_mem Prod.fst hp
        rw [hBkeys2] at hp1
        have := List.mem_range.mp hp1
        omega)
    rw [he1, hBkeys2] at hEkeys
    have hfinal : gensE.map Prod.fst =
        List.range 256 ++ (List.range 256).map (fun b => 0xCB00 + b) := by
      rw [hEkeys]
      congr 1
    have hlen : gensE.length = 512 := by
      have hl := congrArg List.length hfinal
      simpa using hl
    refine ⟨hfinal, hlen, ?_⟩
    intro b hblt
    have hcount : ∀ k : Nat, gensE.countP (fun p => p.1 == k) =
        List.count k (gensE.map Prod.fst) := by
      intro k
      rw [List.count, List.countP_map]
      rfl
    constructor
    · rw [hcount b, hfinal, List.count_append]
      have h1 : List.count b (List.range 256) = 1 :=
        List.count_eq_one_of_mem (List.nodup_range 256) (List.mem_range.mpr hblt)
      have h2 : List.count b ((List.range 256).map (fun x => 0xCB00 + x)) = 0 := by
        rw [List.count_eq_zero]
        intro hmem
        obtain ⟨x, hx, hx2⟩ := List.mem_map.mp hmem
        omega
      omega
    · rw [hcount (0xCB00 + b), hfinal, List.count_append]
      have h1 : List.count (0xCB00 + b) (List.range 256) = 0 := by
        rw [List.count_eq_zero]
        intro hmem
        have := List.mem_range.mp hmem
        omega
      have h2 : List.count (0xCB00 + b) ((List.range 256).map (fun x => 0xCB00 + x)) = 1 := by
        refine List.count_eq_one_of_mem
          ((List.nodup_range 256).map (add_right_injective 0xCB00)) ?_
        exact List.mem_map.mpr ⟨b, List.mem_range.mpr hblt, rfl⟩
      omega

/-- A 17-row, 17-cell all-`\xa0` table: the walker drops one header row and
one header cell per row, leaving sixteen 16-cell data rows. -/
def cbTable : List (List String) := List.replicate 17 (List.replicate 17 "\xa0")

/-- All-nbsp cells decode to INVALID records, so one row of them walks
through without failure. -/
theorem doCells_ok (pfx r : Nat) (cells : List String) :
    ∀ (d : Nat) (gens : GensT), (∀ c ∈ cells, nbspPrefix c = true) →
      ∃ gens', doCells pfx r d cells gens = .ok gens' := by
  induction cells with
  | nil =>
    intro d gens _
    exact ⟨gens, rfl⟩
  | cons c rest ih =>
    intro d gens hall
    have hc : nbspPrefix c = true := hall c (List.mem_cons_self c rest)
    have hrc : readCell (((pfx <<< 8) ||| (r <<< 4)) ||| d) c =
        .ok (invalidGen (((pfx <<< 8) ||| (r <<< 4)) ||| d)) := by
      unfold readCell
      rw [if_pos hc]
    obtain ⟨gens', h⟩ := ih (d + 1)
      (dictSet gens (((pfx <<< 8) ||| (r <<< 4)) ||| d)
        (invalidGen (((pfx <<< 8) ||| (r <<< 4)) ||| d)))
      (fun c2 hc2 => hall c2 (List.mem_cons_of_mem c hc2))
    refine ⟨gens', ?_⟩
    unfold doCells
    rw [hrc]
    exact h

/-- A table of all-nbsp data cells walks through without failure. -/
theorem doRows_ok (pfx : Nat) (rows : List (List String)) :
    ∀ (r : Nat) (gens : GensT),
      (∀ row ∈ rows, ∀ c ∈ row.drop 1, nbspPrefix c = true) →
      ∃ gens', doRows pfx r rows gens = .ok gens' := by
  induction rows with
  | nil =>
    intro r gens _
    exact ⟨gens, rfl⟩
  | cons row rest ih =>
    intro r gens hall
    obtain ⟨gens1, h1⟩ := doCells_ok pfx r (row.drop 1) 0 gens
      (hall row (List.mem_cons_self row rest))
    obtain ⟨gens', h2⟩ := ih (r + 1) gens1
      (fun row2 hr2 => hall row2 (List.mem_cons_of_mem row hr2))
    refine ⟨gens', ?_⟩
    unfold doRows
    rw [h1]
    exact h2

/-- The two table walks over `cbTable` succeed. -/
theorem runTables_cb_ok : ∃ gensE, runTables cbTable cbTable = .ok gensE := by
  have hall : ∀ row ∈ cbTable.drop 1, ∀ c ∈ row.drop 1, nbspPrefix c = true := by decide
  obtain ⟨g1, h1⟩ := doRows_ok 0 (cbTable.drop 1) 0 [] hall
  obtain ⟨g2, h2⟩ := doRows_ok 0xCB (cbTable.drop 1) 0 g1 hall
  refine ⟨g2, ?_⟩
  unfold runTables
  rw [show doTable cbTable 0 [] = .ok g1 from h1]
  exact h2

/-- Witness for C2 at the concrete all-invalid tables: 512 records. -/
theorem C2_all_512_witness :
    ∃ gensE, runTables cbTable cbTable = .ok gensE ∧ gensE.length = 512 := by
  obtain ⟨gensE, hok⟩ := runTables_cb_ok
  exact ⟨gensE, hok,
    (C2_all_512 cbTable cbTable gensE
      (by decide) (by decide) (by decide) (by decide) hok).2.1⟩

/-! ## Claim C7 -/

/-- Claim C7: when the walked color occurrences are exactly two "#FF0000"
and one "#00FF00" (in any order), the emitted color table has exactly two
entries, in lexicographic order of the color strings, and every occurrence
of a color resolves to the one index that is its rank in the sorted order:
"#00FF00" to 0 and "#FF0000" (both occurrences, as `keys` is a function of
the color string) to 1. -/
theorem C7_color_dedup (manual custom : List (List String))
    (hperm : (colorStrings manual custom).Perm ["#FF0000", "#FF0000", "#00FF00"]) :
    allColors manual custom = ["#00FF00", "#FF0000"] ∧
    colorTable manual custom = ["[0x00, 0xFF, 0x00],", "[0xFF, 0x00, 0x00],"] ∧
    (colorTable manual custom).length = 2 ∧
    keysIndex manual custom "#FF0000" = some 1 ∧
    keysIndex manual custom "#00FF00" = some 0 := by
  have hdedup : (colorStrings manual custom).dedup.Perm ["#00FF00", "#FF0000"] := by
    have h1 := hperm.dedup
    rw [show (["#FF0000", "#FF0000", "#00FF00"] : List String).dedup =
      ["#FF0000", "#00FF00"] by decide] at h1
    exact h1.trans (List.Perm.swap _ _ _)
  have hsorted : List.Sorted (· ≤ ·) (allColors manual custom) :=
    List.sorted_insertionSort _ _
  have htarget : List.Sorted (· ≤ ·) (["#00FF00", "#FF0000"] : List String) := by
    refine List.sorted_cons.mpr ⟨?_, List.sorted_singleton _⟩
    intro b hb
    rw [List.mem_singleton.mp hb, String.le_iff_toList_le]
    decide
  have hall : allColors manual custom = ["#00FF00", "#FF0000"] :=
    List.eq_of_perm_of_sorted ((List.perm_insertionSort _ _).trans hdedup) hsorted htarget
  refine ⟨hall, ?_, ?_, ?_, ?_⟩
  · unfold colorTable
    rw [hall]
    decide
  · unfold colorTable
    rw [hall]
    decide
  · unfold keysIndex
    rw [hall]
    decide
  · unfold keysIndex
    rw [hall]
    decide

/-- Input rows for the C7 witness: "#FF0000" twice in a manual row,
"#00FF00" once in a custom row. -/
def c7manual : List (List String) := [["combo", "#FF0000", "#FF0000"]]

/-- See `c7manual`. -/
def c7custom : List (List String) := [["name", "variant", "aux", "#00FF00"]]

/-- Witness for C7 at the concrete rows. -/
theorem C7_color_dedup_witness :
    allColors c7manual c7custom = ["#00FF00", "#FF0000"] ∧
    keysIndex c7manual c7custom "#FF0000" = some 1 := by
  have h := C7_color_dedup c7manual c7custom (List.Perm.refl _)
  exact ⟨h.1, h.2.2.2.1⟩

/-! ## Claim C8 -/

/-- `find?` over a map that leaves the tested component unchanged. -/
theorem find?_map_pred (g : (String × List String) → String × List String)
    (pred : (String × List String) → Bool) (acc : List (String × List String))
    (hg : ∀ x, pred (g x) = pred x) :
    (acc.map g).find? pred = (acc.find? pred).map g := by
  induction acc with
  | nil => rfl
  | cons a as ih =>
    rw [List.map_cons]
    cases hp : pred a with
    | true =>
      rw [List.find?_cons_of_pos _ (by rw [hg a]; exact hp),
        List.find?_cons_of_pos _ hp]
      rfl
    | false =>
      rw [List.find?_cons_of_neg _ (by rw [hg a]; simp [hp]),
        List.find?_cons_of_neg _ (by simp [hp])]
      exact ih

/-- `matches[k].append v` leaves the key list untouched when `k` is already
a key. -/
theorem addMatch_fst_mem (acc : List (String × List String)) (k v : String)
    (h : acc.any (fun p => p.1 == k) = true) :
    (addMatch acc k v).map Prod.fst = acc.map Prod.fst := by
  unfold addMatch
  rw [if_pos h, List.map_map]
  refine List.map_congr_left (fun p _ => ?_)
  simp only [Function.comp_apply]
  split <;> rfl

/-- `matches[k].append v` appends the key when `k` is new. -/
theorem addMatch_fst_new (acc : List (String × List String)) (k v : String)
    (h : acc.any (fun p => p.1 == k) = false) :
    (addMatch acc k v).map Prod.fst = acc.map Prod.fst ++ [k] := by
  unfold addMatch
  rw [if_neg (by simp [h]), List.map_append]
  rfl

/-- The entry `find?` sees after `matches[k].append v`. -/
theorem addMatch_find_eq (acc : List (String × List String)) (k v : String) :
    (addMatch acc k v).find? (fun p => p.1 == k) =
      match acc.find? (fun p => p.1 == k) with
      | some q => some (q.1, q.2 ++ [v])
      | none => some (k, [v]) := by
  unfold addMatch
  by_cases h : acc.any (fun p => p.1 == k) = true
  · rw [if_pos h]
    rw [find?_map_pred _ _ _ (fun x => by
      by_cases h2 : (x.1 == k) = true
      · simp [h2]
      · simp [h2])]
    rw [List.any_eq_true] at h
    obtain ⟨x, hx, hpx⟩ := h
    cases hfind : acc.find? (fun p => p.1 == k) with
    | none =>
      rw [List.find?_eq_none] at hfind
      exact absurd hpx (by simpa using hfind x hx)
    | some q =>
      have hq : (q.1 == k) = true := by
        have := List.find?_some hfind
        simpa using this
      have hqk : q.1 = k := by simpa using hq
      simp [hqk]
  · rw [if_neg h]
    have hnone : acc.find? (fun p => p.1 == k) = none := by
      rw [List.find?_eq_none]
      intro x hx hc
      exact h (List.any_eq_true.mpr ⟨x, hx, hc⟩)
    rw [hnone, List.find?_append, hnone]
    simp

/-- `matches[k2].append v` does not disturb the entry of a different key. -/
theorem addMatch_find_ne (acc : List (String × List String)) (k2 v k : String)
    (hk : (k2 == k) = false) :
    (addMatch acc k2 v).find? (fun p => p.1 == k) = acc.find? (fun p => p.1 == k) := by
  unfold addMatch
  by_cases h : acc.any (fun p => p.1 == k2) = true
  · rw [if_pos h]
    rw [find?_map_pred _ _ _ (fun x => by
      by_cases h2 : (x.1 == k2) = true
      · simp [h2]
      · simp [h2])]
    cases hfind : acc.find? (fun p => p.1 == k) with
    | none => rfl
    | some q =>
      have hq : (q.1 == k) = true := by
        have := List.find?_some hfind
        simpa using this
      have hqk : q.1 = k := by simpa using hq
      have hkk : (k == k2) = false := by
        rw [Bool.eq_false_iff]
        intro hc
        have he : k = k2 := by simpa using hc
        rw [he, beq_self_eq_true] at hk
        exact Bool.noConfusion hk
      show some (if q.1 == k2 then (q.1, q.2 ++ [v]) else q) = some q
      rw [hqk, if_neg (by simp [hkk])]
  · rw [if_neg h, List.find?_append]
    cases hfind : acc.find? (fun p => p.1 == k) with
    | some q => rfl
    | none =>
      rw [List.find?_cons_of_neg _ (by simp [hk]), List.find?_nil]
      rfl

/-- The grouping fold keeps the key list duplicate-free. -/
theorem groupFold_fst_nodup (key mem : List String → String) (rows : List (List String)) :
    ∀ acc : List (String × List String), (acc.map Prod.fst).Nodup →
      ((groupFold key mem rows acc).map Prod.fst).Nodup := by
  induction rows with
  | nil =>
    intro acc h
    simpa [groupFold] using h
  | cons m rest ih =>
    intro acc h
    rw [show groupFold key mem (m :: rest) acc =
      groupFold key mem rest (addMatch acc (key m) (mem m)) from rfl]
    refine ih _ ?_
    by_cases hmem : acc.any (fun p => p.1 == key m) = true
    · rw [addMatch_fst_mem _ _ _ hmem]
      exact h
    · have hfalse : acc.any (fun p => p.1 == key m) = false := by
        cases hval : acc.any (fun p => p.1 == key m) with
        | true => exact absurd hval hmem
        | false => rfl
      rw [addMatch_fst_new _ _ _ hfalse]
      rw [List.nodup_append]
      refine ⟨h, List.nodup_singleton _, fun a ha hb => ?_⟩
      rw [List.mem_singleton] at hb
      subst hb
      obtain ⟨p, hp, hpa⟩ := List.mem_map.mp ha
      exact hmem (List.any_eq_true.mpr ⟨p, hp, by simp [hpa]⟩)

/-- What the grouping fold's dict holds at key `k`: the members of the rows
whose key renders to `k`, in input order, appended after whatever the
accumulator already held under `k`. -/
theorem groupFold_find (key mem : List String → String) (rows : List (List String)) :
    ∀ (acc : List (String × List String)) (k : String),
      ((groupFold key mem rows acc).find? (fun p => p.1 == k)).map Prod.snd =
        match (acc.find? (fun p => p.1 == k)).map Prod.snd with
        | some l => some (l ++ (rows.filter (fun m => key m == k)).map mem)
        | none =>
          if (rows.filter (fun m => key m == k)).isEmpty then none
          else some ((rows.filter (fun m => key m == k)).map mem) := by
  induction rows with
  | nil =>
    intro acc k
    cases hf : (acc.find? (fun p => p.1 == k)).map Prod.snd with
    | none => simp [groupFold, hf]
    | some l => simp [groupFold, hf]
  | cons m rest ih =>
    intro acc k
    rw [show groupFold key mem (m :: rest) acc =
      groupFold key mem rest (addMatch acc (key m) (mem m)) from rfl]
    rw [ih (addMatch acc (key m) (mem m)) k]
    cases hk : (key m == k) with
    | true =>
      have hkm : key m = k := by simpa using hk
      subst hkm
      rw [List.filter_cons_of_pos (by simp [hk])]
      rw [addMatch_find_eq]
      cases hacc : acc.find? (fun p => p.1 == key m) with
      | some q => simp
      | none => simp
    | false =>
      rw [addMatch_find_ne _ _ _ _ hk]
      rw [List.filter_cons_of_neg (by simp [hk])]

/-- Claim C8: custom rows with identical resolved color-index sequences
render identical palette keys; the emitted matches table holds at most one
palette definition per rendered key (its key list has no duplicates); and
the group stored under any key `k` consists exactly of the `(name, variant)`
members of the custom rows rendering to `k`, in input (first-occurrence)
order. -/
theorem C8_palette_grouping (manual custom : List (List String)) :
    (∀ m1 m2 : List String,
      rowIndices manual custom m1 = rowIndices manual custom m2 →
      customKey manual custom m1 = customKey manual custom m2) ∧
    ((buildMatches manual custom).map Prod.fst).Nodup ∧
    (∀ k : String,
      ((buildMatches manual custom).find? (fun p => p.1 == k)).map Prod.snd =
        if (custom.filter (fun m => customKey manual custom m == k)).isEmpty then none
        else some ((custom.filter (fun m => customKey manual custom m == k)).map
          customMember)) := by
  refine ⟨?_, ?_, ?_⟩
  · intro m1 m2 h
    unfold customKey
    rw [h]
  · exact groupFold_fst_nodup _ _ custom [] (by simp)
  · intro k
    have h := groupFold_find (customKey manual custom) customMember custom [] k
    exact h

/-- Custom rows for the C8 witness: two rows with the same single color, the
second with an empty variant. -/
def c8custom : List (List String) :=
  [["n1", "v1", "aux", "#AA0000"], ["n2", "", "aux", "#AA0000"]]

/-- Witness for C8 at the concrete rows: both rows render the same palette
key and the single emitted group lists both identifiers in input order,
the empty variant printed as "_". -/
theorem C8_palette_grouping_witness :
    customKey [] c8custom ["n1", "v1", "aux", "#AA0000"] =
      customKey [] c8custom ["n2", "", "aux", "#AA0000"] ∧
    ((buildMatches [] c8custom).find?
        (fun p => p.1 == customKey [] c8custom ["n1", "v1", "aux", "#AA0000"])).map
      Prod.snd = some ["(n1, v1)", "(n2, _)"] := by
  have h := C8_palette_grouping [] c8custom
  refine ⟨h.1 _ _ rfl, ?_⟩
  rw [h.2.2 (customKey [] c8custom ["n1", "v1", "aux", "#AA0000"])]
  decide
